import Mathlib

/-!
# Shallow embedding of the erp-demo movement journal and reconciliation view

This file embeds the data model and the operations of the repository's two
applications (the Flask app in erp_app.py, and the Excel-file writer that both
erp_app.py and streamlit_erp.py contain) and proves properties of the
reconciliation view, the journal append operations, and the monthly-archive
projection.

Modelling conventions:
* SQL rows become Lean structures; a table is a `List` of rows kept in
  insertion order (SQLite assigns ids `max id + 1`, so insertion order is id
  order for rows created through the app).
* Python floats (`qty`, `rate`, `amt`) are modelled as `ℚ`; the code only
  multiplies and adds them, and every claim is about those algebraic
  relations, not about rounding.
* A nullable text column (`dc_no_cust`) is `Option String`; `(x or "")`
  becomes `Option.getD x ""` and Python's `.strip()` is `pyStrip` below.
* A form field read with `request.form.get(k)` is `Option` of its parsed
  value; `none` models both an absent field and an empty string (both are
  falsy to Python's `or`), so `float(request.form.get("qty") or 0)` becomes
  `(f.qty).getD 0`.
* Dates are abstract: `entry_date : Nat` keeps only the ordering, which is
  all the queries use.
-/

/-- A row of the `customer` table (erp_app.py, class Customer). -/
structure Customer where
  id : Int
  name : String
  gst_no : String
  address : String
  mobile : String
  email : String
deriving DecidableEq, Repr

/-- A row of the `item` table (erp_app.py, class Item). -/
structure Item where
  id : Int
  name : String
  hsn_code : String
  material : String
deriving DecidableEq, Repr

/-- A row of the `inward` table (erp_app.py, class Inward). -/
structure InwardRec where
  id : Int
  entry_date : Nat
  customer_id : Int
  item_id : Int
  dc_no_cust : Option String
  qty : ℚ
  rate : ℚ
  amt : ℚ
deriving DecidableEq, Repr

/-- A row of the `outward` table (erp_app.py, class Outward). -/
structure OutwardRec where
  id : Int
  entry_date : Nat
  customer_id : Int
  item_id : Int
  dc_no_cust : Option String
  dc_unique_no_noncust : Option String
  qty : ℚ
deriving DecidableEq, Repr

/-- The SQLite database state: the four tables, each in insertion order. -/
structure Db where
  customers : List Customer
  items : List Item
  inwards : List InwardRec
  outwards : List OutwardRec
deriving DecidableEq, Repr

/-- The POST body of the `/inward` form, after numeric parsing.  `none` in
`qty`/`rate` models an absent or empty field (falsy to Python's `or`). -/
structure InwardForm where
  customer_id : Int
  item_id : Int
  dc_no_cust : Option String
  qty : Option ℚ
  rate : Option ℚ
deriving DecidableEq, Repr

/-- The POST body of the `/outward` form, after numeric parsing. -/
structure OutwardForm where
  customer_id : Int
  item_id : Int
  dc_no_cust : Option String
  dc_unique : Option String
  qty : Option ℚ
deriving DecidableEq, Repr

/-- SQLite assigns the next integer primary key as `max existing + 1`
(1 for an empty table). -/
def nextId (ids : List Int) : Int :=
  (ids.foldl max 0) + 1

/-- The write path of the `/inward` POST handler (erp_app.py, `inward`,
lines 244-264): parse `qty`/`rate` with default 0, derive `amt = qty * rate`,
build the record and commit it.  No validation of `customer_id`/`item_id`
against the master tables and no sign check on `qty` occurs in the source.
Returns the new database state and the record that was inserted. -/
def inwardPost (db : Db) (f : InwardForm) (entry_date : Nat) : Db × InwardRec :=
  let qty := f.qty.getD 0
  let rate := f.rate.getD 0
  let amt := qty * rate
  let record : InwardRec :=
    { id := nextId (db.inwards.map (fun r => r.id))
      entry_date := entry_date
      customer_id := f.customer_id
      item_id := f.item_id
      dc_no_cust := f.dc_no_cust
      qty := qty
      rate := rate
      amt := amt }
  ({ db with inwards := db.inwards ++ [record] }, record)

/-- The write path of the `/outward` POST handler (erp_app.py, `outward`,
lines 337-355): parse `qty` with default 0, build the record and commit it.
As for inward, the source performs no validation. -/
def outwardPost (db : Db) (f : OutwardForm) (entry_date : Nat) : Db × OutwardRec :=
  let qty := f.qty.getD 0
  let record : OutwardRec :=
    { id := nextId (db.outwards.map (fun r => r.id))
      entry_date := entry_date
      customer_id := f.customer_id
      item_id := f.item_id
      dc_no_cust := f.dc_no_cust
      dc_unique_no_noncust := f.dc_unique
      qty := qty }
  ({ db with outwards := db.outwards ++ [record] }, record)

/-- The database-mutating operations the application exposes: adding and
deleting master records (`/master`), and the two journal appends.  The
source has no edit operation and no delete for journal records. -/
inductive Op where
  | addCustomer (name gst address mobile email : String)
  | addItem (name hsn material : String)
  | delCustomer (cid : Int)
  | delItem (iid : Int)
  | inwardEntry (f : InwardForm) (d : Nat)
  | outwardEntry (f : OutwardForm) (d : Nat)
deriving DecidableEq, Repr

/-- One request against the application (erp_app.py routes `master`,
`inward`, `outward`). -/
def step (db : Db) : Op → Db
  | .addCustomer n g a m e =>
      { db with customers := db.customers ++
          [{ id := nextId (db.customers.map (fun c => c.id)),
             name := n, gst_no := g, address := a, mobile := m, email := e }] }
  | .addItem n h m =>
      { db with items := db.items ++
          [{ id := nextId (db.items.map (fun i => i.id)),
             name := n, hsn_code := h, material := m }] }
  | .delCustomer cid =>
      { db with customers := db.customers.filter (fun c => c.id != cid) }
  | .delItem iid =>
      { db with items := db.items.filter (fun i => i.id != iid) }
  | .inwardEntry f d => (inwardPost db f d).1
  | .outwardEntry f d => (outwardPost db f d).1

/-- A sequence of requests, applied left to right. -/
def runOps (db : Db) (ops : List Op) : Db :=
  ops.foldl step db

/-- The query-string filter of the `/overall` route.  Flask's
`request.args.get("customer_id", type=int)` yields `None` when the parameter
is absent or unparseable, hence `Option Int`. -/
structure QueryFilter where
  customer_id : Option Int
  item_id : Option Int
deriving DecidableEq, Repr

/-- Python truthiness of an optional integer: `None` and `0` are falsy.
This is exactly the test `if cust_filter:` performs in the `overall` route. -/
def intTruthy : Option Int → Bool
  | none => false
  | some n => n != 0

/-- The filter chain of the `overall` route (erp_app.py lines 427-434)
applied to the inward table: each `filter_by` is applied only when the
parsed query value is truthy. -/
def filterInwards (f : QueryFilter) (l : List InwardRec) : List InwardRec :=
  let l1 := if intTruthy f.customer_id then
      l.filter (fun r => r.customer_id == f.customer_id.getD 0) else l
  if intTruthy f.item_id then
    l1.filter (fun r => r.item_id == f.item_id.getD 0) else l1

/-- The same filter chain applied to the outward table. -/
def filterOutwards (f : QueryFilter) (l : List OutwardRec) : List OutwardRec :=
  let l1 := if intTruthy f.customer_id then
      l.filter (fun r => r.customer_id == f.customer_id.getD 0) else l
  if intTruthy f.item_id then
    l1.filter (fun r => r.item_id == f.item_id.getD 0) else l1

/-- Comparator for `ORDER BY entry_date DESC` on inward rows: `a` may come
before `b` when `a`'s date is the later (or equal) one. -/
def dateDescInw (a b : InwardRec) : Bool :=
  b.entry_date ≤ a.entry_date

/-- Comparator for `ORDER BY entry_date DESC` on outward rows. -/
def dateDescOutw (a b : OutwardRec) : Bool :=
  b.entry_date ≤ a.entry_date

/-- Deterministic reference result of
`inward_q.order_by(Inward.entry_date.desc()).all()` (erp_app.py line 436):
the filtered rows sorted newest-first.  SQL fixes only the `entry_date`
ordering; where rows share a date this reference picks one of the orders the
database is allowed to return (`IsInwardQueryResult` below captures exactly
what the query guarantees). -/
def queryInwards (db : Db) (f : QueryFilter) : List InwardRec :=
  (filterInwards f db.inwards).mergeSort dateDescInw

/-- Deterministic reference result of the outward query (line 437). -/
def queryOutwards (db : Db) (f : QueryFilter) : List OutwardRec :=
  (filterOutwards f db.outwards).mergeSort dateDescOutw

/-- Everything `ORDER BY entry_date DESC` guarantees about the inward query
result: it is some permutation of the filtered rows that is sorted
newest-first.  SQL/SQLite leaves the relative order of rows with equal
`entry_date` unspecified (the query has no secondary sort key). -/
def IsInwardQueryResult (db : Db) (f : QueryFilter) (l : List InwardRec) : Prop :=
  l.Perm (filterInwards f db.inwards) ∧
    l.Pairwise (fun a b => b.entry_date ≤ a.entry_date)

/-- Everything `ORDER BY entry_date DESC` guarantees about the outward query
result. -/
def IsOutwardQueryResult (db : Db) (f : QueryFilter) (l : List OutwardRec) : Prop :=
  l.Perm (filterOutwards f db.outwards) ∧
    l.Pairwise (fun a b => b.entry_date ≤ a.entry_date)

/-- Python's `str.strip()` with no argument: remove leading and trailing
whitespace characters.  Defined by structural recursion on the character
list so that concrete keys evaluate inside the kernel (Lean's `String.trim`
is extensionally the same function but is defined by well-founded recursion
on byte positions and does not reduce). -/
def pyStrip (s : String) : String :=
  String.mk (((s.data.dropWhile Char.isWhitespace).reverse.dropWhile
    Char.isWhitespace).reverse)

/-- The aggregation key of a movement record:
`(rec.dc_no_cust or "").strip()` (erp_app.py lines 442, 448, 459). -/
def keyOf (o : Option String) : String :=
  pyStrip (o.getD "")

/-- One value of the `dc_map` dictionary:
`{"inward": ..., "outward": ...}` (erp_app.py line 445). -/
structure DCEntry where
  inward : ℚ
  outward : ℚ
deriving DecidableEq, Repr

/-- `m = dc_map.setdefault(key, {"inward": 0.0, "outward": 0.0});
m["inward"] += q` on an insertion-ordered dictionary: update the entry in
place if the key is present, else append a fresh entry at the end. -/
def addInward (m : List (String × DCEntry)) (k : String) (q : ℚ) :
    List (String × DCEntry) :=
  match m with
  | [] => [(k, ⟨q, 0⟩)]
  | (k₁, e) :: rest =>
      if k == k₁ then (k₁, ⟨e.inward + q, e.outward⟩) :: rest
      else (k₁, e) :: addInward rest k q

/-- The same for `m["outward"] += q`. -/
def addOutward (m : List (String × DCEntry)) (k : String) (q : ℚ) :
    List (String × DCEntry) :=
  match m with
  | [] => [(k, ⟨0, q⟩)]
  | (k₁, e) :: rest =>
      if k == k₁ then (k₁, ⟨e.inward, e.outward + q⟩) :: rest
      else (k₁, e) :: addOutward rest k q

/-- The loop body of the first `dc_map` pass (erp_app.py lines 441-446):
skip records whose trimmed DC reference is empty, else accumulate the
quantity into the entry's `inward` field. -/
def inwFoldStep (m : List (String × DCEntry)) (inv : InwardRec) :
    List (String × DCEntry) :=
  let key := keyOf inv.dc_no_cust
  if key == "" then m else addInward m key inv.qty

/-- The loop body of the second `dc_map` pass (erp_app.py lines 447-452). -/
def outFoldStep (m : List (String × DCEntry)) (out : OutwardRec) :
    List (String × DCEntry) :=
  let key := keyOf out.dc_no_cust
  if key == "" then m else addOutward m key out.qty

/-- The `dc_map` construction (erp_app.py lines 440-452): one pass over the
ENTIRE inward table, then one over the entire outward table — both
unfiltered (`Inward.query.all()` / `Outward.query.all()`) — skipping records
whose trimmed DC reference is empty.  `inv.qty or 0.0` is the identity here
because `qty` is never NULL for rows created by the app and `0.0 or 0.0`
is `0.0`. -/
def buildDcMap (inws : List InwardRec) (outs : List OutwardRec) :
    List (String × DCEntry) :=
  outs.foldl outFoldStep (inws.foldl inwFoldStep [])

/-- `dc_map.get(key, {}).get("outward", 0.0)` (erp_app.py line 460). -/
def dcGetOutward (m : List (String × DCEntry)) (k : String) : ℚ :=
  match m.lookup k with
  | some e => e.outward
  | none => 0

/-- `dc_map.get(key, {}).get("inward", dflt)` (erp_app.py line 461); when the
key has an entry both fields are always present (setdefault seeds them), so
the default is used exactly when the key is absent. -/
def dcGetInwardOr (m : List (String × DCEntry)) (k : String) (dflt : ℚ) : ℚ :=
  match m.lookup k with
  | some e => e.inward
  | none => dflt

/-- `Customer.query.get(id)`. -/
def findCustomer (cs : List Customer) (cid : Int) : Option Customer :=
  cs.find? (fun c => c.id == cid)

/-- `Item.query.get(id)`. -/
def findItem (its : List Item) (iid : Int) : Option Item :=
  its.find? (fun i => i.id == iid)

/-- One displayed row of the `/overall` table (erp_app.py lines 463-472). -/
structure OverallRow where
  date : Nat
  desc : String
  customer : String
  item : String
  hsn : String
  dc_no_cust : String
  qty_dispatch : ℚ
  pending_qty : ℚ
deriving DecidableEq, Repr

/-- The row the `overall` route builds for one inward record (erp_app.py
lines 456-472): dispatched comes from the aggregate map (default 0), the
inward total from the aggregate map (defaulting to the row's own `qty`,
since `inv.qty or 0.0` equals `inv.qty` for app-created rows), and
`pending = inward_total - dispatched`. -/
def rowOf (db : Db) (dcm : List (String × DCEntry)) (inv : InwardRec) :
    OverallRow :=
  let key := keyOf inv.dc_no_cust
  let dispatched := dcGetOutward dcm key
  let inwardTot := dcGetInwardOr dcm key inv.qty
  { date := inv.entry_date
    desc := ""
    customer := ((findCustomer db.customers inv.customer_id).map
      (fun c => c.name)).getD ""
    item := ((findItem db.items inv.item_id).map (fun i => i.name)).getD ""
    hsn := ((findItem db.items inv.item_id).map (fun i => i.hsn_code)).getD ""
    dc_no_cust := key
    qty_dispatch := dispatched
    pending_qty := inwardTot - dispatched }

/-- The full `/overall` display: the filtered, newest-first inward rows,
each enriched from the filter-independent `dc_map`. -/
def overallRows (db : Db) (f : QueryFilter) : List OverallRow :=
  (queryInwards db f).map (rowOf db (buildDcMap db.inwards db.outwards))

/-- Spec-side total: sum of `qty` over ALL inward records of the journal
whose trimmed DC reference equals `k` (the DCAggregate of spec section 3).
Stated from the spec's words; the theorems below relate it to the source's
`buildDcMap`. -/
def inward_total (inws : List InwardRec) (k : String) : ℚ :=
  ((inws.filter (fun r => keyOf r.dc_no_cust == k)).map (fun r => r.qty)).sum

/-- Spec-side total: sum of `qty` over ALL outward records whose trimmed DC
reference equals `k`. -/
def outward_total (outs : List OutwardRec) (k : String) : ℚ :=
  ((outs.filter (fun r => keyOf r.dc_no_cust == k)).map (fun r => r.qty)).sum

/-- The on-disk state of one monthly archive file, as the projection code
observes it.  `truncated` is the state between
`pd.ExcelWriter(month_file, engine="openpyxl", mode="w")` and
`writer.close()`: since pandas 1.3 the `ExcelWriter` constructor opens the
path with `get_handle(path, "w", ...)`, truncating the file on disk to zero
bytes immediately, so any `pd.read_excel` of that path raises until the
writer saves. -/
inductive FileState (R : Type) where
  | absent
  | valid (sheets : List (String × List R))
  | truncated
deriving DecidableEq, Repr

/-- `pd.read_excel(path, sheet_name=s)` wrapped in the source's
`try/except`: `some` rows on success, `none` when the file is missing,
unreadable (truncated), or lacks the sheet. -/
def readSheet {R : Type} (fs : FileState R) (s : String) : Option (List R) :=
  match fs with
  | .valid sheets => sheets.lookup s
  | _ => none

/-- `os.path.exists(month_file)`.  A truncated file still exists on disk. -/
def fileExists {R : Type} : FileState R → Bool
  | .absent => false
  | _ => true

/-- The sibling direction-table name (erp_app.py line 88,
streamlit_erp.py line 53). -/
def otherSheetOf (s : String) : String :=
  if s == "Outward" then "Inward" else "Outward"

/-- erp_app.py `append_row_to_sheet` (lines 68-97), step by step:
1. if the file exists, read the target sheet and append the row to it
   (on any failure, start the sheet from just the new row);
2. construct `pd.ExcelWriter(month_file, mode="w")` — from pandas 1.3 on
   this opens and truncates the file on disk;
3. re-read the sibling sheet from the path to "preserve" it — the path now
   holds a truncated file, so the read raises and `except Exception: pass`
   drops the sibling silently;
4. write the target sheet and close, leaving the sheets the writer holds. -/
def append_row_to_sheet {R : Type} (fs : FileState R) (sheet_name : String)
    (row : R) : FileState R :=
  let df : List R :=
    if fileExists fs then
      match readSheet fs sheet_name with
      | some existing => existing ++ [row]
      | none => [row]
    else [row]
  let fsAfterWriterOpen : FileState R := .truncated
  let other := otherSheetOf sheet_name
  let writerSheets : List (String × List R) :=
    if fileExists fsAfterWriterOpen then
      match readSheet fsAfterWriterOpen other with
      | some odf => [(other, odf)]
      | none => []
    else []
  .valid (writerSheets ++ [(sheet_name, df)])

/-- Replace the value stored under key `k` in an insertion-ordered
dictionary, keeping its position (Python dict assignment to an existing
key). -/
def updateSheet {R : Type} (sheets : List (String × List R)) (k : String)
    (v : List R) : List (String × List R) :=
  match sheets with
  | [] => []
  | (k₁, v₁) :: rest =>
      if k == k₁ then (k₁, v) :: rest else (k₁, v₁) :: updateSheet rest k v

/-- streamlit_erp.py `append_row_to_month_file` (lines 35-57): load ALL
sheets of the archive into a dictionary first (before any writer is
opened), append the row to the target sheet (replacing it when it was
empty), create the sibling sheet empty when absent, then rewrite the whole
workbook from the dictionary. -/
def append_row_to_month_file {R : Type} (fs : FileState R)
    (sheet_name : String) (row : R) : FileState R :=
  let sheets : List (String × List R) :=
    match fs with
    | .valid ss => ss
    | _ => []
  let sheets₁ :=
    match sheets.lookup sheet_name with
    | some t =>
        if t.isEmpty then updateSheet sheets sheet_name [row]
        else updateSheet sheets sheet_name (t ++ [row])
    | none => sheets ++ [(sheet_name, [row])]
  let other := otherSheetOf sheet_name
  let sheets₂ :=
    if (sheets₁.lookup other).isSome then sheets₁
    else sheets₁ ++ [(other, [])]
  .valid sheets₂

/-! ## Properties of the aggregate map -/

theorem lookup_addInward_self (m : List (String × DCEntry)) (k : String)
    (q : ℚ) :
    (addInward m k q).lookup k =
      some ⟨((m.lookup k).getD ⟨0, 0⟩).inward + q,
            ((m.lookup k).getD ⟨0, 0⟩).outward⟩ := by
  induction m with
  | nil => simp [addInward, List.lookup]
  | cons hd tl ih =>
    obtain ⟨k₁, e⟩ := hd
    by_cases h : k = k₁
    · subst h
      simp [addInward, List.lookup]
    · have hb : (k == k₁) = false := by simp [h]
      simp [addInward, List.lookup, hb, ih]

theorem lookup_addInward_ne (m : List (String × DCEntry)) (k k' : String)
    (q : ℚ) (h : k' ≠ k) :
    (addInward m k q).lookup k' = m.lookup k' := by
  have hb : (k' == k) = false := by simp [h]
  induction m with
  | nil => simp [addInward, List.lookup, hb]
  | cons hd tl ih =>
    obtain ⟨k₁, e⟩ := hd
    by_cases h₁ : k = k₁
    · subst h₁
      simp [addInward, List.lookup, hb]
    · have hb₁ : (k == k₁) = false := by simp [h₁]
      by_cases h₂ : k' = k₁
      · subst h₂
        simp [addInward, List.lookup, hb₁]
      · have hb₂ : (k' == k₁) = false := by simp [h₂]
        simp [addInward, List.lookup, hb₁, hb₂, ih]

theorem lookup_addOutward_self (m : List (String × DCEntry)) (k : String)
    (q : ℚ) :
    (addOutward m k q).lookup k =
      some ⟨((m.lookup k).getD ⟨0, 0⟩).inward,
            ((m.lookup k).getD ⟨0, 0⟩).outward + q⟩ := by
  induction m with
  | nil => simp [addOutward, List.lookup]
  | cons hd tl ih =>
    obtain ⟨k₁, e⟩ := hd
    by_cases h : k = k₁
    · subst h
      simp [addOutward, List.lookup]
    · have hb : (k == k₁) = false := by simp [h]
      simp [addOutward, List.lookup, hb, ih]

theorem lookup_addOutward_ne (m : List (String × DCEntry)) (k k' : String)
    (q : ℚ) (h : k' ≠ k) :
    (addOutward m k q).lookup k' = m.lookup k' := by
  have hb : (k' == k) = false := by simp [h]
  induction m with
  | nil => simp [addOutward, List.lookup, hb]
  | cons hd tl ih =>
    obtain ⟨k₁, e⟩ := hd
    by_cases h₁ : k = k₁
    · subst h₁
      simp [addOutward, List.lookup, hb]
    · have hb₁ : (k == k₁) = false := by simp [h₁]
      by_cases h₂ : k' = k₁
      · subst h₂
        simp [addOutward, List.lookup, hb₁]
      · have hb₂ : (k' == k₁) = false := by simp [h₂]
        simp [addOutward, List.lookup, hb₁, hb₂, ih]

theorem inward_total_nil (k : String) : inward_total [] k = 0 := rfl

theorem inward_total_cons (r : InwardRec) (l : List InwardRec) (k : String) :
    inward_total (r :: l) k =
      (if keyOf r.dc_no_cust = k then r.qty else 0) + inward_total l k := by
  by_cases h : keyOf r.dc_no_cust = k
  · simp [inward_total, List.filter, h]
  · have hb : (keyOf r.dc_no_cust == k) = false := by simp [h]
    simp [inward_total, List.filter, h, hb]

theorem outward_total_cons (r : OutwardRec) (l : List OutwardRec)
    (k : String) :
    outward_total (r :: l) k =
      (if keyOf r.dc_no_cust = k then r.qty else 0) + outward_total l k := by
  by_cases h : keyOf r.dc_no_cust = k
  · simp [outward_total, List.filter, h]
  · have hb : (keyOf r.dc_no_cust == k) = false := by simp [h]
    simp [outward_total, List.filter, h, hb]

theorem inward_total_eq_zero (inws : List InwardRec) (k : String)
    (h : inws.any (fun r => keyOf r.dc_no_cust == k) = false) :
    inward_total inws k = 0 := by
  induction inws with
  | nil => rfl
  | cons r rest ih =>
    simp only [List.any_cons, Bool.or_eq_false_iff] at h
    obtain ⟨hb, hrest⟩ := h
    have hne : keyOf r.dc_no_cust ≠ k := by simpa using hb
    rw [inward_total_cons, if_neg hne, ih hrest, add_zero]

theorem outward_total_eq_zero (outs : List OutwardRec) (k : String)
    (h : outs.any (fun r => keyOf r.dc_no_cust == k) = false) :
    outward_total outs k = 0 := by
  induction outs with
  | nil => rfl
  | cons r rest ih =>
    simp only [List.any_cons, Bool.or_eq_false_iff] at h
    obtain ⟨hb, hrest⟩ := h
    have hne : keyOf r.dc_no_cust ≠ k := by simpa using hb
    rw [outward_total_cons, if_neg hne, ih hrest, add_zero]

theorem lookup_foldInw (k : String) (hk : k ≠ "") (inws : List InwardRec)
    (m : List (String × DCEntry)) :
    (inws.foldl inwFoldStep m).lookup k =
      match m.lookup k with
      | some e => some ⟨e.inward + inward_total inws k, e.outward⟩
      | none =>
          if inws.any (fun r => keyOf r.dc_no_cust == k)
          then some ⟨inward_total inws k, 0⟩ else none := by
  induction inws generalizing m with
  | nil =>
    rw [List.foldl_nil]
    cases hm : m.lookup k with
    | none => simp
    | some e => simp [inward_total]
  | cons r rest ih =>
    rw [List.foldl_cons]
    by_cases h0 : keyOf r.dc_no_cust = ""
    · have hne : keyOf r.dc_no_cust ≠ k := by
        rw [h0]; exact fun hh => hk hh.symm
      have hb : (keyOf r.dc_no_cust == k) = false := by simp [hne]
      have hstep : inwFoldStep m r = m := by simp [inwFoldStep, h0]
      rw [hstep, ih m]
      simp only [inward_total_cons, if_neg hne, zero_add, List.any_cons, hb,
        Bool.false_or]
    · by_cases h1 : keyOf r.dc_no_cust = k
      · have hstep : inwFoldStep m r = addInward m k r.qty := by
          simp [inwFoldStep, h1, hk]
        rw [hstep, ih (addInward m k r.qty), lookup_addInward_self]
        simp only [inward_total_cons, if_pos h1, List.any_cons]
        cases hm : m.lookup k with
        | some e => simp [add_assoc]
        | none => simp [h1, add_assoc]
      · have hstep : inwFoldStep m r = addInward m (keyOf r.dc_no_cust) r.qty := by
          simp [inwFoldStep, h0]
        rw [hstep, ih (addInward m (keyOf r.dc_no_cust) r.qty),
          lookup_addInward_ne _ _ _ _ (Ne.symm h1)]
        have hb : (keyOf r.dc_no_cust == k) = false := by simp [h1]
        simp only [inward_total_cons, if_neg h1, zero_add, List.any_cons, hb,
          Bool.false_or]

theorem lookup_foldOut (k : String) (hk : k ≠ "") (outs : List OutwardRec)
    (m : List (String × DCEntry)) :
    (outs.foldl outFoldStep m).lookup k =
      match m.lookup k with
      | some e => some ⟨e.inward, e.outward + outward_total outs k⟩
      | none =>
          if outs.any (fun r => keyOf r.dc_no_cust == k)
          then some ⟨0, outward_total outs k⟩ else none := by
  induction outs generalizing m with
  | nil =>
    rw [List.foldl_nil]
    cases hm : m.lookup k with
    | none => simp
    | some e => simp [outward_total]
  | cons r rest ih =>
    rw [List.foldl_cons]
    by_cases h0 : keyOf r.dc_no_cust = ""
    · have hne : keyOf r.dc_no_cust ≠ k := by
        rw [h0]; exact fun hh => hk hh.symm
      have hb : (keyOf r.dc_no_cust == k) = false := by simp [hne]
      have hstep : outFoldStep m r = m := by simp [outFoldStep, h0]
      rw [hstep, ih m]
      simp only [outward_total_cons, if_neg hne, zero_add, List.any_cons, hb,
        Bool.false_or]
    · by_cases h1 : keyOf r.dc_no_cust = k
      · have hstep : outFoldStep m r = addOutward m k r.qty := by
          simp [outFoldStep, h1, hk]
        rw [hstep, ih (addOutward m k r.qty), lookup_addOutward_self]
        simp only [outward_total_cons, if_pos h1, List.any_cons]
        cases hm : m.lookup k with
        | some e => simp [add_assoc]
        | none => simp [h1, add_assoc]
      · have hstep : outFoldStep m r = addOutward m (keyOf r.dc_no_cust) r.qty := by
          simp [outFoldStep, h0]
        rw [hstep, ih (addOutward m (keyOf r.dc_no_cust) r.qty),
          lookup_addOutward_ne _ _ _ _ (Ne.symm h1)]
        have hb : (keyOf r.dc_no_cust == k) = false := by simp [h1]
        simp only [outward_total_cons, if_neg h1, zero_add, List.any_cons, hb,
          Bool.false_or]

/-- Characterization of the `dc_map` the `overall` route builds: for every
non-empty key, the entry (when present) holds exactly the journal-wide
inward and outward totals for that key, and an entry is present exactly
when some movement record carries that key. -/
theorem lookup_buildDcMap (inws : List InwardRec) (outs : List OutwardRec)
    (k : String) (hk : k ≠ "") :
    (buildDcMap inws outs).lookup k =
      if (inws.any (fun r => keyOf r.dc_no_cust == k) ||
          outs.any (fun r => keyOf r.dc_no_cust == k))
      then some ⟨inward_total inws k, outward_total outs k⟩
      else none := by
  rw [buildDcMap, lookup_foldOut k hk, lookup_foldInw k hk]
  simp only [List.lookup_nil]
  by_cases hi : inws.any (fun r => keyOf r.dc_no_cust == k)
  · simp [hi]
  · have hzi : inward_total inws k = 0 :=
      inward_total_eq_zero inws k (by simpa using hi)
    by_cases ho : outs.any (fun r => keyOf r.dc_no_cust == k)
    · simp [hi, ho, hzi]
    · simp [hi, ho]

theorem lookup_empty_foldInw (inws : List InwardRec)
    (m : List (String × DCEntry)) (h : m.lookup "" = none) :
    (inws.foldl inwFoldStep m).lookup "" = none := by
  induction inws generalizing m with
  | nil => simpa using h
  | cons r rest ih =>
    rw [List.foldl_cons]
    by_cases h0 : keyOf r.dc_no_cust = ""
    · have hstep : inwFoldStep m r = m := by simp [inwFoldStep, h0]
      rw [hstep]; exact ih m h
    · have hstep : inwFoldStep m r = addInward m (keyOf r.dc_no_cust) r.qty := by
        simp [inwFoldStep, h0]
      rw [hstep]
      exact ih _ (by rw [lookup_addInward_ne _ _ _ _ (fun hh => h0 hh.symm)]; exact h)

theorem lookup_empty_foldOut (outs : List OutwardRec)
    (m : List (String × DCEntry)) (h : m.lookup "" = none) :
    (outs.foldl outFoldStep m).lookup "" = none := by
  induction outs generalizing m with
  | nil => simpa using h
  | cons r rest ih =>
    rw [List.foldl_cons]
    by_cases h0 : keyOf r.dc_no_cust = ""
    · have hstep : outFoldStep m r = m := by simp [outFoldStep, h0]
      rw [hstep]; exact ih m h
    · have hstep : outFoldStep m r = addOutward m (keyOf r.dc_no_cust) r.qty := by
        simp [outFoldStep, h0]
      rw [hstep]
      exact ih _ (by rw [lookup_addOutward_ne _ _ _ _ (fun hh => h0 hh.symm)]; exact h)

/-- A blank DC reference never acquires an entry in `dc_map`: the two
aggregation passes skip records whose trimmed key is empty. -/
theorem lookup_buildDcMap_empty (inws : List InwardRec)
    (outs : List OutwardRec) :
    (buildDcMap inws outs).lookup "" = none := by
  rw [buildDcMap]
  exact lookup_empty_foldOut outs _ (lookup_empty_foldInw inws [] rfl)

/-- Membership in the filtered inward list implies membership in the full
inward table (each `filter_by` only narrows the row set). -/
theorem mem_of_mem_filterInwards (f : QueryFilter) (l : List InwardRec)
    (r : InwardRec) (h : r ∈ filterInwards f l) : r ∈ l := by
  unfold filterInwards at h
  by_cases hc : intTruthy f.customer_id <;>
    by_cases hi : intTruthy f.item_id <;>
    simp [hc, hi] at h <;> tauto

/-- Membership in the query result is membership in the filtered list: the
`ORDER BY` only permutes. -/
theorem mem_queryInwards (db : Db) (f : QueryFilter) (r : InwardRec) :
    r ∈ queryInwards db f ↔ r ∈ filterInwards f db.inwards := by
  unfold queryInwards
  exact List.mem_mergeSort

theorem inward_total_append (a b : List InwardRec) (k : String) :
    inward_total (a ++ b) k = inward_total a k + inward_total b k := by
  simp [inward_total, List.filter_append]

theorem outward_total_append (a b : List OutwardRec) (k : String) :
    outward_total (a ++ b) k = outward_total a k + outward_total b k := by
  simp [outward_total, List.filter_append]

/-- No operation of the application ever removes or rewrites an inward
record: each request leaves the inward table a prefix of the new one. -/
theorem step_inwards_mono (db : Db) (op : Op) :
    ∃ tl, (step db op).inwards = db.inwards ++ tl := by
  cases op with
  | addCustomer n g a m e => exact ⟨[], by simp [step]⟩
  | addItem n h m => exact ⟨[], by simp [step]⟩
  | delCustomer cid => exact ⟨[], by simp [step]⟩
  | delItem iid => exact ⟨[], by simp [step]⟩
  | inwardEntry f d => exact ⟨[(inwardPost db f d).2], rfl⟩
  | outwardEntry f d => exact ⟨[], by simp [step, outwardPost]⟩

theorem runOps_inwards_mono (db : Db) (ops : List Op) :
    ∃ tl, (runOps db ops).inwards = db.inwards ++ tl := by
  induction ops generalizing db with
  | nil => exact ⟨[], by simp [runOps]⟩
  | cons op rest ih =>
    obtain ⟨t₁, h₁⟩ := step_inwards_mono db op
    obtain ⟨t₂, h₂⟩ := ih (step db op)
    refine ⟨t₁ ++ t₂, ?_⟩
    rw [runOps, List.foldl_cons]
    rw [runOps] at h₂
    rw [h₂, h₁, List.append_assoc]

/-! ## Claim theorems -/

/-- C1: for every journal state and every non-empty trimmed DC key, the
displayed reconciliation row of an inward record computes
`pending = inward_total - outward_total`, where both totals range over the
ENTIRE journal; the right-hand sides do not mention the display filter `f`,
so the per-key totals are identical under every customer/item filter. -/
theorem c1_pending_eq_totals (db : Db) (f : QueryFilter) (inv : InwardRec)
    (hmem : inv ∈ queryInwards db f) (hk : keyOf inv.dc_no_cust ≠ "") :
    (rowOf db (buildDcMap db.inwards db.outwards) inv).qty_dispatch
        = outward_total db.outwards (keyOf inv.dc_no_cust) ∧
    (rowOf db (buildDcMap db.inwards db.outwards) inv).pending_qty
        = inward_total db.inwards (keyOf inv.dc_no_cust)
          - outward_total db.outwards (keyOf inv.dc_no_cust) := by
  have hmem' : inv ∈ db.inwards :=
    mem_of_mem_filterInwards f db.inwards inv
      ((mem_queryInwards db f inv).mp hmem)
  have hany : db.inwards.any
      (fun r => keyOf r.dc_no_cust == keyOf inv.dc_no_cust) = true := by
    rw [List.any_eq_true]
    exact ⟨inv, hmem', by simp⟩
  have hmap := lookup_buildDcMap db.inwards db.outwards
    (keyOf inv.dc_no_cust) hk
  rw [hany] at hmap
  simp only [Bool.true_or, if_true] at hmap
  constructor
  · simp [rowOf, dcGetOutward, hmap]
  · simp [rowOf, dcGetOutward, dcGetInwardOr, hmap]

/-- Concrete journal for the C1 witness: one inward of 10 and one outward
of 4 against the same DC reference. -/
def invW1 : InwardRec :=
  { id := 1, entry_date := 3, customer_id := 1, item_id := 1,
    dc_no_cust := some "DC1", qty := 10, rate := 2, amt := 20 }

def outW1 : OutwardRec :=
  { id := 1, entry_date := 4, customer_id := 1, item_id := 1,
    dc_no_cust := some " DC1 ", dc_unique_no_noncust := none, qty := 4 }

def custW1 : Customer :=
  { id := 1, name := "Acme", gst_no := "", address := "",
    mobile := "", email := "" }

def itemW1 : Item :=
  { id := 1, name := "Widget", hsn_code := "", material := "" }

def dbW1 : Db :=
  { customers := [custW1], items := [itemW1],
    inwards := [invW1], outwards := [outW1] }

/-- Witness for C1 at a concrete journal and the unfiltered view. -/
theorem c1_witness :
    invW1 ∈ queryInwards dbW1 ⟨none, none⟩ ∧
    keyOf invW1.dc_no_cust ≠ "" ∧
    ((rowOf dbW1 (buildDcMap dbW1.inwards dbW1.outwards) invW1).qty_dispatch
        = outward_total dbW1.outwards (keyOf invW1.dc_no_cust) ∧
     (rowOf dbW1 (buildDcMap dbW1.inwards dbW1.outwards) invW1).pending_qty
        = inward_total dbW1.inwards (keyOf invW1.dc_no_cust)
          - outward_total dbW1.outwards (keyOf invW1.dc_no_cust)) :=
  ⟨(mem_queryInwards dbW1 ⟨none, none⟩ invW1).mpr
      (by simp [filterInwards, intTruthy, dbW1]),
   by decide,
   c1_pending_eq_totals dbW1 ⟨none, none⟩ invW1
     ((mem_queryInwards dbW1 ⟨none, none⟩ invW1).mpr
       (by simp [filterInwards, intTruthy, dbW1]))
     (by decide)⟩

/-- C4: an inward record whose DC reference trims to the empty string
contributes to no aggregate entry (removing it from the journal leaves
`dc_map` unchanged), and its displayed row shows `dispatched = 0` and
`pending = qty` (the record's own quantity), for every journal state. -/
theorem c4_blank_dc_untracked (db : Db) (outs : List OutwardRec)
    (l₁ l₂ : List InwardRec) (r : InwardRec)
    (hb : keyOf r.dc_no_cust = "") :
    buildDcMap (l₁ ++ r :: l₂) outs = buildDcMap (l₁ ++ l₂) outs ∧
    (rowOf db (buildDcMap db.inwards db.outwards) r).qty_dispatch = 0 ∧
    (rowOf db (buildDcMap db.inwards db.outwards) r).pending_qty = r.qty := by
  refine ⟨?_, ?_, ?_⟩
  · unfold buildDcMap
    congr 1
    rw [List.foldl_append, List.foldl_cons, List.foldl_append]
    congr 1
    simp [inwFoldStep, hb]
  · have hnone := lookup_buildDcMap_empty db.inwards db.outwards
    simp [rowOf, dcGetOutward, hb, hnone]
  · have hnone := lookup_buildDcMap_empty db.inwards db.outwards
    simp [rowOf, dcGetOutward, dcGetInwardOr, hb, hnone]

/-- A whitespace-only DC reference for the C4 witness. -/
def invW4 : InwardRec :=
  { id := 2, entry_date := 6, customer_id := 1, item_id := 1,
    dc_no_cust := some "   ", qty := 7, rate := 1, amt := 7 }

def dbW4 : Db :=
  { customers := [custW1], items := [itemW1],
    inwards := [invW1, invW4], outwards := [outW1] }

/-- Witness for C4: a whitespace-only DC reference is untracked. -/
theorem c4_witness :
    keyOf invW4.dc_no_cust = "" ∧
    (buildDcMap ([invW1] ++ invW4 :: []) dbW4.outwards
        = buildDcMap ([invW1] ++ []) dbW4.outwards ∧
     (rowOf dbW4 (buildDcMap dbW4.inwards dbW4.outwards) invW4).qty_dispatch
        = 0 ∧
     (rowOf dbW4 (buildDcMap dbW4.inwards dbW4.outwards) invW4).pending_qty
        = invW4.qty) :=
  ⟨by decide,
   c4_blank_dc_untracked dbW4 dbW4.outwards [invW1] [] invW4 (by decide)⟩

/-- C6: aggregation keys are the trimmed, case-sensitive DC strings.  Two
records whose references trim to the same non-empty key accumulate into the
SAME `dc_map` entry (their quantities add into one inward total); two
records with distinct trimmed keys (e.g. differing only in letter case)
keep DISTINCT entries, each holding only its own quantity. -/
theorem c6_trimmed_case_sensitive_keys :
    (∀ (l : List InwardRec) (outs : List OutwardRec) (r₁ r₂ : InwardRec),
      keyOf r₁.dc_no_cust = keyOf r₂.dc_no_cust →
      keyOf r₁.dc_no_cust ≠ "" →
      (buildDcMap (l ++ [r₁, r₂]) outs).lookup (keyOf r₁.dc_no_cust) =
        some ⟨inward_total l (keyOf r₁.dc_no_cust) + r₁.qty + r₂.qty,
              outward_total outs (keyOf r₁.dc_no_cust)⟩) ∧
    (∀ (outs : List OutwardRec) (r₁ r₂ : InwardRec),
      keyOf r₁.dc_no_cust ≠ keyOf r₂.dc_no_cust →
      keyOf r₁.dc_no_cust ≠ "" → keyOf r₂.dc_no_cust ≠ "" →
      (buildDcMap [r₁, r₂] outs).lookup (keyOf r₁.dc_no_cust) =
        some ⟨r₁.qty, outward_total outs (keyOf r₁.dc_no_cust)⟩ ∧
      (buildDcMap [r₁, r₂] outs).lookup (keyOf r₂.dc_no_cust) =
        some ⟨r₂.qty, outward_total outs (keyOf r₂.dc_no_cust)⟩) := by
  constructor
  · intro l outs r₁ r₂ hsame hk
    have hany : ((l ++ [r₁, r₂]).any
        fun r => keyOf r.dc_no_cust == keyOf r₁.dc_no_cust) = true := by
      simp [List.any_append]
    have hc := lookup_buildDcMap (l ++ [r₁, r₂]) outs
      (keyOf r₁.dc_no_cust) hk
    rw [hany, Bool.true_or, if_pos rfl] at hc
    rw [hc]
    congr 2
    rw [inward_total_append, inward_total_cons, inward_total_cons,
      inward_total_nil, if_pos rfl, if_pos hsame.symm]
    ring
  · intro outs r₁ r₂ hne hk₁ hk₂
    constructor
    · have hany : ([r₁, r₂].any
          fun r => keyOf r.dc_no_cust == keyOf r₁.dc_no_cust) = true := by
        simp
      have hc := lookup_buildDcMap [r₁, r₂] outs (keyOf r₁.dc_no_cust) hk₁
      rw [hany, Bool.true_or, if_pos rfl] at hc
      rw [hc]
      congr 2
      rw [inward_total_cons, inward_total_cons, inward_total_nil,
        if_pos rfl, if_neg (fun hh => hne hh.symm)]
      ring
    · have hany : ([r₁, r₂].any
          fun r => keyOf r.dc_no_cust == keyOf r₂.dc_no_cust) = true := by
        simp
      have hc := lookup_buildDcMap [r₁, r₂] outs (keyOf r₂.dc_no_cust) hk₂
      rw [hany, Bool.true_or, if_pos rfl] at hc
      rw [hc]
      congr 2
      rw [inward_total_cons, inward_total_cons, inward_total_nil,
        if_neg hne, if_pos rfl]
      ring

/-- Records for the C6 witness: a pair differing only by surrounding
whitespace, and a pair differing only by letter case. -/
def invC6a : InwardRec :=
  { id := 1, entry_date := 1, customer_id := 1, item_id := 1,
    dc_no_cust := some " DC7 ", qty := 3, rate := 0, amt := 0 }

def invC6b : InwardRec :=
  { id := 2, entry_date := 1, customer_id := 1, item_id := 1,
    dc_no_cust := some "DC7", qty := 5, rate := 0, amt := 0 }

def invC6c : InwardRec :=
  { id := 3, entry_date := 1, customer_id := 1, item_id := 1,
    dc_no_cust := some "dc7", qty := 2, rate := 0, amt := 0 }

/-- Witness for C6 at concrete whitespace-variant and case-variant keys. -/
theorem c6_witness :
    keyOf invC6a.dc_no_cust = keyOf invC6b.dc_no_cust ∧
    keyOf invC6b.dc_no_cust ≠ keyOf invC6c.dc_no_cust ∧
    (buildDcMap ([] ++ [invC6a, invC6b]) []).lookup
        (keyOf invC6a.dc_no_cust) =
      some ⟨inward_total [] (keyOf invC6a.dc_no_cust) + invC6a.qty +
        invC6b.qty, outward_total [] (keyOf invC6a.dc_no_cust)⟩ ∧
    (buildDcMap [invC6b, invC6c] []).lookup (keyOf invC6b.dc_no_cust) =
      some ⟨invC6b.qty, outward_total [] (keyOf invC6b.dc_no_cust)⟩ :=
  ⟨by decide, by decide,
   (c6_trimmed_case_sensitive_keys.1 [] [] invC6a invC6b
     (by decide) (by decide)),
   (c6_trimmed_case_sensitive_keys.2 [] invC6b invC6c
     (by decide) (by decide) (by decide)).1⟩

/-- Two inward records sharing an entry date for the C7 counterexample. -/
def invC7a : InwardRec :=
  { id := 1, entry_date := 5, customer_id := 1, item_id := 1,
    dc_no_cust := some "A", qty := 1, rate := 0, amt := 0 }

def invC7b : InwardRec :=
  { id := 2, entry_date := 5, customer_id := 1, item_id := 1,
    dc_no_cust := some "B", qty := 2, rate := 0, amt := 0 }

def dbC7 : Db :=
  { customers := [], items := [], inwards := [invC7a, invC7b],
    outwards := [] }

/-- C7 counterexample: the query orders by `entry_date DESC` only, so for
two records sharing an entry date BOTH relative orders satisfy everything
the query guarantees (`IsInwardQueryResult`).  The order of such ties is
therefore not "broken by id": neither the id-ascending nor the
id-descending arrangement is forced, refuting the claimed tie-break at this
concrete journal. -/
theorem c7_counterexample :
    IsInwardQueryResult dbC7 ⟨none, none⟩ [invC7a, invC7b] ∧
    IsInwardQueryResult dbC7 ⟨none, none⟩ [invC7b, invC7a] ∧
    ([invC7a, invC7b] : List InwardRec) ≠ [invC7b, invC7a] := by
  refine ⟨⟨?_, ?_⟩, ⟨?_, ?_⟩, ?_⟩
  · have hf : filterInwards ⟨none, none⟩ dbC7.inwards = [invC7a, invC7b] :=
      rfl
    rw [hf]
  · simp [invC7a, invC7b]
  · have hf : filterInwards ⟨none, none⟩ dbC7.inwards = [invC7a, invC7b] :=
      rfl
    rw [hf]
    exact List.Perm.swap invC7a invC7b []
  · simp [invC7a, invC7b]
  · simp [invC7a, invC7b]

/-- C7 amended: each direction's query result is a permutation of the
filtered rows sorted newest-first by entry date — everything
`ORDER BY entry_date DESC` promises; the relative order of records sharing
an entry date is left unspecified (the source adds no secondary sort key). -/
theorem c7_amended_order_guarantee (db : Db) (f : QueryFilter) :
    IsInwardQueryResult db f (queryInwards db f) ∧
    IsOutwardQueryResult db f (queryOutwards db f) := by
  constructor
  · refine ⟨List.mergeSort_perm _ _, ?_⟩
    have h := @List.sorted_mergeSort InwardRec dateDescInw
      (fun a b c hab hbc => by
        simp only [dateDescInw, decide_eq_true_eq] at *; omega)
      (fun a b => by
        simp only [dateDescInw, Bool.or_eq_true, decide_eq_true_eq]; omega)
      (filterInwards f db.inwards)
    exact h.imp (fun hab => by
      simpa only [dateDescInw, decide_eq_true_eq] using hab)
  · refine ⟨List.mergeSort_perm _ _, ?_⟩
    have h := @List.sorted_mergeSort OutwardRec dateDescOutw
      (fun a b c hab hbc => by
        simp only [dateDescOutw, decide_eq_true_eq] at *; omega)
      (fun a b => by
        simp only [dateDescOutw, Bool.or_eq_true, decide_eq_true_eq]; omega)
      (filterOutwards f db.outwards)
    exact h.imp (fun hab => by
      simpa only [dateDescOutw, decide_eq_true_eq] using hab)

theorem mem_queryOutwards (db : Db) (f : QueryFilter) (r : OutwardRec) :
    r ∈ queryOutwards db f ↔ r ∈ filterOutwards f db.outwards := by
  unfold queryOutwards
  exact List.mem_mergeSort

/-- C8: with both query parameters supplied (and nonzero), the query
surface returns exactly the records matching BOTH the customer and the item
filter — as a permutation identity against a single conjunctive filter, and
as a membership characterization — for each direction independently. -/
theorem c8_conjunctive_filters (db : Db) (c i : Int) (hc : c ≠ 0)
    (hi : i ≠ 0) :
    ((queryInwards db ⟨some c, some i⟩).Perm
        (db.inwards.filter (fun r => r.customer_id == c && r.item_id == i)) ∧
      ∀ r : InwardRec, r ∈ queryInwards db ⟨some c, some i⟩ ↔
        (r ∈ db.inwards ∧ r.customer_id = c ∧ r.item_id = i)) ∧
    ((queryOutwards db ⟨some c, some i⟩).Perm
        (db.outwards.filter (fun r => r.customer_id == c && r.item_id == i)) ∧
      ∀ r : OutwardRec, r ∈ queryOutwards db ⟨some c, some i⟩ ↔
        (r ∈ db.outwards ∧ r.customer_id = c ∧ r.item_id = i)) := by
  have hct : intTruthy (some c) = true := by simp [intTruthy, hc]
  have hit : intTruthy (some i) = true := by simp [intTruthy, hi]
  have hfin : filterInwards ⟨some c, some i⟩ db.inwards
      = db.inwards.filter (fun r => r.customer_id == c && r.item_id == i) := by
    simp only [filterInwards, hct, hit, if_true, Option.getD_some]
    rw [List.filter_filter]
    exact List.filter_congr (fun a _ => by rw [Bool.and_comm])
  have hfout : filterOutwards ⟨some c, some i⟩ db.outwards
      = db.outwards.filter (fun r => r.customer_id == c && r.item_id == i) := by
    simp only [filterOutwards, hct, hit, if_true, Option.getD_some]
    rw [List.filter_filter]
    exact List.filter_congr (fun a _ => by rw [Bool.and_comm])
  refine ⟨⟨?_, ?_⟩, ⟨?_, ?_⟩⟩
  · rw [queryInwards, hfin]
    exact List.mergeSort_perm _ _
  · intro r
    rw [mem_queryInwards, hfin]
    simp [List.mem_filter]
  · rw [queryOutwards, hfout]
    exact List.mergeSort_perm _ _
  · intro r
    rw [mem_queryOutwards, hfout]
    simp [List.mem_filter]

/-- Witness for C8 at a concrete journal and the filter pair (1, 1). -/
theorem c8_witness :
    (1 : Int) ≠ 0 ∧
    (queryInwards dbW1 ⟨some 1, some 1⟩).Perm
      (dbW1.inwards.filter
        (fun r => r.customer_id == (1 : Int) && r.item_id == (1 : Int))) :=
  ⟨by decide,
   (c8_conjunctive_filters dbW1 1 1 (by decide) (by decide)).1.1⟩

/-- C10: a `customer_id=0` (or `item_id=0`) query parameter is falsy to the
`if cust_filter:` test, so the reconciliation view renders exactly the rows
of the unfiltered query — `0` acts as "no filter", never as a filter
matching id 0. -/
theorem c10_zero_filter_is_no_filter (db : Db) (fc fi : Option Int) :
    (overallRows db ⟨some 0, fi⟩ = overallRows db ⟨none, fi⟩ ∧
     queryOutwards db ⟨some 0, fi⟩ = queryOutwards db ⟨none, fi⟩) ∧
    (overallRows db ⟨fc, some 0⟩ = overallRows db ⟨fc, none⟩ ∧
     queryOutwards db ⟨fc, some 0⟩ = queryOutwards db ⟨fc, none⟩) := by
  have h0 : intTruthy (some 0) = false := by decide
  refine ⟨⟨?_, ?_⟩, ⟨?_, ?_⟩⟩ <;>
    simp [overallRows, queryInwards, queryOutwards, filterInwards,
      filterOutwards, intTruthy, h0]

/-- An inward form whose customer id resolves to no master record and whose
quantity is negative. -/
def formC3 : InwardForm :=
  { customer_id := 99, item_id := 1, dc_no_cust := some "DC9",
    qty := some (-5), rate := some 2 }

/-- An outward form with the same unresolved customer and negative
quantity. -/
def formC3o : OutwardForm :=
  { customer_id := 99, item_id := 1, dc_no_cust := some "DC9",
    dc_unique := none, qty := some (-5) }

/-- C3 counterexample: an append whose customer id matches no master record
and whose quantity is negative is NOT rejected — the journal changes (the
record is persisted), contradicting "fails with ValidationError and no
partial record is persisted".  The source has no validation path at all. -/
theorem c3_counterexample :
    (∀ c ∈ dbW1.customers, c.id ≠ formC3.customer_id) ∧
    formC3.qty.getD 0 < 0 ∧
    (inwardPost dbW1 formC3 7).1.inwards ≠ dbW1.inwards := by
  refine ⟨?_, ?_, ?_⟩
  · intro c hcm
    simp only [dbW1, custW1, List.mem_singleton] at hcm
    subst hcm
    simp [custW1, formC3]
  · norm_num [formC3]
  · simp [inwardPost, dbW1]

/-- C3 amended: the append operations perform no validation whatsoever —
even when the customer id or item id resolves to no master record, or the
quantity is negative, the record is inserted unconditionally (the journal
is extended by exactly that record); no ValidationError exists in the
source. -/
theorem c3_amended_no_validation (db : Db) (d : Nat) (fi : InwardForm)
    (fo : OutwardForm) :
    (((∀ c ∈ db.customers, c.id ≠ fi.customer_id) ∨
      (∀ it ∈ db.items, it.id ≠ fi.item_id) ∨ fi.qty.getD 0 < 0) →
      (inwardPost db fi d).1.inwards
        = db.inwards ++ [(inwardPost db fi d).2]) ∧
    (((∀ c ∈ db.customers, c.id ≠ fo.customer_id) ∨
      (∀ it ∈ db.items, it.id ≠ fo.item_id) ∨ fo.qty.getD 0 < 0) →
      (outwardPost db fo d).1.outwards
        = db.outwards ++ [(outwardPost db fo d).2]) :=
  ⟨fun _ => rfl, fun _ => rfl⟩

/-- Witness for the amended C3 at the concrete invalid form. -/
theorem c3_witness :
    (∀ c ∈ dbW1.customers, c.id ≠ formC3.customer_id) ∧
    (inwardPost dbW1 formC3 7).1.inwards
      = dbW1.inwards ++ [(inwardPost dbW1 formC3 7).2] :=
  ⟨by decide,
   (c3_amended_no_validation dbW1 7 formC3 formC3o).1 (Or.inl (by decide))⟩

/-- C5: every inward append stores `amt = qty * rate` at creation, and no
subsequent sequence of operations (master-record adds/deletes, further
inward or outward appends — the application has no other mutations) ever
alters the stored record: it survives, bit for bit, at its position in the
journal. -/
theorem c5_amount_derived_and_immutable (db : Db) (f : InwardForm) (d : Nat)
    (ops : List Op) :
    (inwardPost db f d).2.amt
        = (inwardPost db f d).2.qty * (inwardPost db f d).2.rate ∧
    ∃ tl, (runOps (inwardPost db f d).1 ops).inwards
        = db.inwards ++ (inwardPost db f d).2 :: tl := by
  constructor
  · rfl
  · obtain ⟨tl, h⟩ := runOps_inwards_mono (inwardPost db f d).1 ops
    refine ⟨tl, ?_⟩
    rw [h]
    simp [inwardPost]

/-- C9: an inward append whose `qty` (resp. `rate`) field is absent or
empty is accepted, not rejected: the stored record carries 0 for the
missing field, and with a missing `rate` the derived amount is 0 as well;
the record is persisted in full. -/
theorem c9_missing_fields_default_zero (db : Db) (d : Nat) (cid iid : Int)
    (dc : Option String) (q rt : Option ℚ) :
    ((inwardPost db ⟨cid, iid, dc, none, rt⟩ d).2.qty = 0 ∧
     (inwardPost db ⟨cid, iid, dc, none, rt⟩ d).2.amt = 0 ∧
     (inwardPost db ⟨cid, iid, dc, none, rt⟩ d).1.inwards
        = db.inwards ++ [(inwardPost db ⟨cid, iid, dc, none, rt⟩ d).2]) ∧
    ((inwardPost db ⟨cid, iid, dc, q, none⟩ d).2.rate = 0 ∧
     (inwardPost db ⟨cid, iid, dc, q, none⟩ d).2.amt = 0 ∧
     (inwardPost db ⟨cid, iid, dc, q, none⟩ d).1.inwards
        = db.inwards ++ [(inwardPost db ⟨cid, iid, dc, q, none⟩ d).2]) := by
  refine ⟨⟨rfl, ?_, rfl⟩, ⟨rfl, ?_, rfl⟩⟩
  · simp [inwardPost]
  · simp [inwardPost]

/-- C2, evaluated at the failing input: an archive holding an Inward table
with one row.  erp_app.py's `append_row_to_sheet` projects an Outward row
and the rewritten archive holds ONLY the Outward sheet — the Inward table
is gone, because the `pd.ExcelWriter(..., mode="w")` constructor truncated
the file before the "preserve the other sheet" re-read ran (and the failed
re-read was swallowed by `except Exception: pass`).  The sibling
implementation in streamlit_erp.py (`append_row_to_month_file`), which
loads every sheet before opening the writer, preserves the Inward rows
exactly as the claim demands. -/
theorem c2_sibling_sheet_lost :
    append_row_to_sheet (FileState.valid [("Inward", [7])]) "Outward"
        (9 : Nat)
      = FileState.valid [("Outward", [9])] ∧
    readSheet (append_row_to_sheet (FileState.valid [("Inward", [7])])
        "Outward" (9 : Nat)) "Inward" = none ∧
    readSheet (append_row_to_month_file (FileState.valid [("Inward", [7])])
        "Outward" (9 : Nat)) "Inward" = some [7] :=
  ⟨rfl, rfl, rfl⟩
